import Mathlib

/-!
Shallow embedding of `src/03_script_logger/03_script_logger.py`.

Python strings are modelled as `List Char`; each `print` call of the script
becomes one element of a returned list of lines; a raised `ValueError`
(MalformedLineError) becomes the `Except.error` branch carrying the raw line.
-/

namespace ScriptLogger

/-- ASCII whitespace recognised by Python `str.strip` / `str.split` with no
separator: space, tab, newline, vertical tab, form feed, carriage return. -/
def pyIsSpace (c : Char) : Bool :=
  c == ' ' || c == '\t' || c == '\n' || c == '\x0b' || c == '\x0c' || c == '\r'

/-- Python `line.strip()`: drop leading and trailing whitespace. -/
def pyStrip (l : List Char) : List Char :=
  ((l.dropWhile pyIsSpace).reverse.dropWhile pyIsSpace).reverse

/-- Skip a run of whitespace (the separator-skipping step of `str.split`). -/
def dropWS (l : List Char) : List Char := l.dropWhile pyIsSpace

/-- Take the maximal leading run of non-whitespace characters (one token). -/
def takeTok (l : List Char) : List Char := l.takeWhile (fun c => !pyIsSpace c)

/-- Python `s.split(maxsplit = n)` with no separator argument: skip leading
whitespace; while splits remain, emit the next token and recurse; once
`maxsplit` splits have been made, the whole remaining text (leading
whitespace skipped) is the last element, verbatim. -/
def pySplit (maxsplit : Nat) (l : List Char) : List (List Char) :=
  let lw := dropWS l
  if lw.isEmpty then []
  else
    match maxsplit with
    | 0 => [lw]
    | m + 1 => takeTok lw :: pySplit m (lw.drop (takeTok lw).length)

/-- The number of whitespace-delimited tokens of a line (the length Python
`line.split()` would have).  `inTok` records whether the previous character
was part of a token. -/
def tokenCountAux (inTok : Bool) : List Char → Nat
  | [] => 0
  | c :: rest =>
    if pyIsSpace c then tokenCountAux false rest
    else (if inTok then 0 else 1) + tokenCountAux true rest

/-- Token count of a line, starting outside any token. -/
def tokenCount (l : List Char) : Nat := tokenCountAux false l

/-- The `LogEntry` TypedDict of the script: four string fields. -/
structure LogEntry where
  date : List Char
  time : List Char
  level : List Char
  message : List Char
  deriving DecidableEq, Repr

/-- Python `parse_log_line`: `parts = line.strip().split(maxsplit=3)`; if
fewer than 4 parts, raise `ValueError` carrying the line; otherwise build the
entry from the four parts.  (`split(maxsplit=3)` yields at most 4 parts, so
the fallthrough cases of the match are exactly `len(parts) < 4`.) -/
def parse_log_line (line : List Char) : Except (List Char) LogEntry :=
  match pySplit 3 (pyStrip line) with
  | [date, time, level, message] =>
    Except.ok { date := date, time := time, level := level, message := message }
  | _ => Except.error line

/-- Python `load_logs` over an already-obtained sequence of lines: the list
comprehension `[parse_log_line(line) for line in file if line.strip()]`
keeps non-blank lines in order, and the first `ValueError` raised by
`parse_log_line` aborts the whole comprehension. -/
def load_logs (lines : List (List Char)) : Except (List Char) (List LogEntry) :=
  match lines with
  | [] => Except.ok []
  | line :: rest =>
    if (pyStrip line).isEmpty then load_logs rest
    else
      match parse_log_line line with
      | Except.error e => Except.error e
      | Except.ok entry =>
        match load_logs rest with
        | Except.error e => Except.error e
        | Except.ok entries => Except.ok (entry :: entries)

/-- Python `level.upper()` on the ASCII letters. -/
def pyUpper (s : List Char) : List Char := s.map Char.toUpper

/-- Python `filter_logs_by_level`: upper-case the requested level, then keep
the logs whose stored `level` field equals it. -/
def filter_logs_by_level (logs : List LogEntry) (level : List Char) : List LogEntry :=
  let level := pyUpper level
  logs.filter (fun log => log.level == level)

/-- One step of `collections.Counter`: increment the count of `k`, keeping
first-insertion order of keys as a Python dict does. -/
def counterInsert (m : List (List Char × Nat)) (k : List Char) : List (List Char × Nat) :=
  match m with
  | [] => [(k, 1)]
  | (k', n) :: rest => if k' = k then (k', n + 1) :: rest else (k', n) :: counterInsert rest k

/-- Python `count_logs_by_level`: `Counter(log["level"] for log in logs)`. -/
def count_logs_by_level (logs : List LogEntry) : List (List Char × Nat) :=
  logs.foldl (fun m log => counterInsert m log.level) []

/-- Lookup in the counter (`counts[level]`); 0 when absent. -/
def countsLookup (m : List (List Char × Nat)) (k : List Char) : Nat :=
  match m with
  | [] => 0
  | (k', n) :: rest => if k' = k then n else countsLookup rest k

/-- Python `calculate_level_width`: `max((len(level) for level in counts),
default=0)` then `max(len(header), longest_level)`. -/
def calculate_level_width (counts : List (List Char × Nat)) (header : List Char) : Nat :=
  let longest_level := (counts.map (fun p => p.1.length)).foldr max 0
  max header.length longest_level

/-- Python `f"{s:<{w}}"`: left-align `s` in a field of width `w`, padding
with spaces on the right (no truncation when `s` is longer). -/
def padLeftAlign (s : List Char) (w : Nat) : List Char :=
  s ++ List.replicate (w - s.length) ' '

/-- Decimal rendering of a count, as Python `str(int)` for non-negatives. -/
def natChars (n : Nat) : List Char := (Nat.repr n).data

/-- Python string `<=` restricted to this model: lexicographic comparison by
code point, a proper prefix preceding its extensions. -/
def strLe (a b : List Char) : Bool :=
  match a, b with
  | [], _ => true
  | _ :: _, [] => false
  | x :: xs, y :: ys => if x == y then strLe xs ys else decide (x < y)

/-- The `Prop`-valued order used to model Python `sorted` on strings. -/
def strLeP (a b : List Char) : Prop := strLe a b = true

instance : DecidableRel strLeP := fun a b => decEq (strLe a b) true

/-- Python `print_table_header`: the header row
`f"{level_header:<{level_width}} | {count_header}"` and the separator row
`f"{dashes * level_width}-|{dashes * (len(count_header) + 1)}"`. -/
def print_table_header (level_header count_header : List Char) (level_width : Nat) :
    List (List Char) :=
  [padLeftAlign level_header level_width ++ " | ".data ++ count_header,
   List.replicate level_width '-' ++ '-' :: '|' :: List.replicate (count_header.length + 1) '-']

/-- Python `print_table_rows`: one printed line per key of `counts`, keys in
`sorted` order, each line `f"{level:<{level_width}} | {counts[level]}"`. -/
def print_table_rows (counts : List (List Char × Nat)) (level_width : Nat) :
    List (List Char) :=
  (List.insertionSort strLeP (counts.map Prod.fst)).map
    (fun level => padLeftAlign level level_width ++ " | ".data ++ natChars (countsLookup counts level))

/-- The apostrophe character appearing in the script's f-strings. -/
def apos : Char := Char.ofNat 39

/-- Python `display_log_counts` with its fixed Ukrainian headers. -/
def display_log_counts (counts : List (List Char × Nat)) : List (List Char) :=
  let header_level := "Рівень логування".data
  let header_count := "Кількість".data
  let level_width := calculate_level_width counts header_level
  print_table_header header_level header_count level_width ++ print_table_rows counts level_width

/-- Python `display_filtered_logs`: upper-case the level; when the filtered
list is empty print the single no-entries notice, otherwise print the header
naming the level followed by `f"{log.date} {log.time} - {log.message}"` for
each entry in order.  Each element of the result is one `print` call. -/
def display_filtered_logs (logs : List LogEntry) (level : List Char) : List (List Char) :=
  let level := pyUpper level
  if logs.isEmpty then
    ["\nНемає записів для рівня ".data ++ apos :: level ++ apos :: ".".data]
  else
    ("\nДеталі логів для рівня ".data ++ apos :: level ++ apos :: ":".data)
      :: logs.map (fun log => log.date ++ " ".data ++ log.time ++ " - ".data ++ log.message)

/-- The entry parsed from the first Scenario 1 sample line, used by witnesses. -/
def sampleEntry : LogEntry :=
  { date := "2024-01-01".data, time := "10:00:00".data,
    level := "INFO".data, message := "Service started".data }

/-- The three Scenario 1 sample input lines of the spec. -/
def sampleLines : List (List Char) :=
  ["2024-01-01 10:00:00 INFO Service started".data,
   "2024-01-01 10:05:00 ERROR Disk full".data,
   "2024-01-01 10:06:00 ERROR Disk full again".data]

/-! Helper lemmas about splitting and token counting. -/

theorem takeWhile_append_of_all (p : Char → Bool) (a b : List Char)
    (h : ∀ x ∈ a, p x = true) : (a ++ b).takeWhile p = a ++ b.takeWhile p := by
  induction a with
  | nil => simp
  | cons c cs ih =>
    have hc : p c = true := h c (List.mem_cons_self c cs)
    simp [List.takeWhile_cons, hc, ih fun x hx => h x (List.mem_cons_of_mem c hx)]

theorem dropWhile_append_of_all (p : Char → Bool) (a b : List Char)
    (h : ∀ x ∈ a, p x = true) : (a ++ b).dropWhile p = b.dropWhile p := by
  induction a with
  | nil => simp
  | cons c cs ih =>
    have hc : p c = true := h c (List.mem_cons_self c cs)
    simp [List.dropWhile_cons, hc, ih fun x hx => h x (List.mem_cons_of_mem c hx)]

theorem drop_length_takeWhile (p : Char → Bool) (l : List Char) :
    l.drop (l.takeWhile p).length = l.dropWhile p := by
  induction l with
  | nil => rfl
  | cons c cs ih =>
    by_cases hc : p c = true
    · simp [List.takeWhile_cons, List.dropWhile_cons, hc, ih]
    · simp [List.takeWhile_cons, List.dropWhile_cons, Bool.of_not_eq_true hc]

theorem head_dropWS (l : List Char) (c : Char) (rest : List Char)
    (h : dropWS l = c :: rest) : pyIsSpace c = false := by
  induction l with
  | nil => simp [dropWS] at h
  | cons x xs ih =>
    by_cases hx : pyIsSpace x = true
    · exact ih (by simpa [dropWS, List.dropWhile_cons, hx] using h)
    · have hx' : pyIsSpace x = false := Bool.of_not_eq_true hx
      simp [dropWS, List.dropWhile_cons, hx'] at h
      simp [← h.1, hx']

theorem tokenCount_dropWS (l : List Char) : tokenCount (dropWS l) = tokenCount l := by
  induction l with
  | nil => rfl
  | cons c cs ih =>
    by_cases hc : pyIsSpace c = true
    · simpa [dropWS, tokenCount, tokenCountAux, List.dropWhile_cons, hc] using ih
    · simp [dropWS, tokenCount, List.dropWhile_cons, Bool.of_not_eq_true hc]

theorem tokenCountAux_true_eq (l : List Char) :
    tokenCountAux true l = tokenCount (l.dropWhile (fun c => !pyIsSpace c)) := by
  induction l with
  | nil => rfl
  | cons c cs ih =>
    by_cases hc : pyIsSpace c = true
    · simp [tokenCountAux, tokenCount, List.dropWhile_cons, hc]
    · have hc' : pyIsSpace c = false := Bool.of_not_eq_true hc
      simpa [tokenCountAux, List.dropWhile_cons, hc'] using ih

theorem tokenCount_token_step (c : Char) (rest : List Char) (h : pyIsSpace c = false) :
    tokenCount (c :: rest) =
      1 + tokenCount ((c :: rest).dropWhile (fun x => !pyIsSpace x)) := by
  simp [tokenCount, tokenCountAux, h, List.dropWhile_cons, tokenCountAux_true_eq]

theorem length_pySplit (n : Nat) : ∀ l : List Char,
    (pySplit n l).length = min (tokenCount l) (n + 1) := by
  induction n with
  | zero =>
    intro l
    rcases hlw : dropWS l with _ | ⟨c, rest⟩
    · have h0 : tokenCount l = 0 := by
        rw [← tokenCount_dropWS, hlw]; rfl
      simp [pySplit, hlw, h0]
    · have hc := head_dropWS l c rest hlw
      have h1 : 1 ≤ tokenCount l := by
        rw [← tokenCount_dropWS, hlw, tokenCount_token_step c rest hc]
        omega
      simp [pySplit, hlw]
      omega
  | succ m ih =>
    intro l
    rcases hlw : dropWS l with _ | ⟨c, rest⟩
    · have h0 : tokenCount l = 0 := by
        rw [← tokenCount_dropWS, hlw]; rfl
      simp [pySplit, hlw, h0]
    · have hc := head_dropWS l c rest hlw
      have hdrop : (c :: rest).drop ((c :: rest).takeWhile (fun x => !pyIsSpace x)).length
          = (c :: rest).dropWhile (fun x => !pyIsSpace x) :=
        drop_length_takeWhile _ _
      have htc : tokenCount l =
          1 + tokenCount ((c :: rest).dropWhile (fun x => !pyIsSpace x)) := by
        rw [← tokenCount_dropWS, hlw, tokenCount_token_step c rest hc]
      simp [pySplit, hlw, takeTok, hdrop, ih, htc]
      omega

theorem pySplit_mem_ne_nil (n : Nat) : ∀ (l : List Char) (p : List Char),
    p ∈ pySplit n l → p ≠ [] := by
  induction n with
  | zero =>
    intro l p hp
    rcases hlw : dropWS l with _ | ⟨c, rest⟩ <;> simp [pySplit, hlw] at hp
    simp [hp]
  | succ m ih =>
    intro l p hp
    rcases hlw : dropWS l with _ | ⟨c, rest⟩ <;> simp [pySplit, hlw] at hp
    rcases hp with hp | hp
    · have hc := head_dropWS l c rest hlw
      simp [hp, takeTok, List.takeWhile_cons, hc]
    · exact ih _ p hp

theorem pySplit_ws_absorb (n : Nat) (w R : List Char)
    (hw : ∀ x ∈ w, pyIsSpace x = true) : pySplit n (w ++ R) = pySplit n R := by
  have h : dropWS (w ++ R) = dropWS R := dropWhile_append_of_all _ _ _ hw
  cases n <;> simp [pySplit, h]

theorem pySplit_token_step (n : Nat) (t w R : List Char) (a : Char) (as : List Char)
    (hteq : t = a :: as) (ht : ∀ x ∈ t, pyIsSpace x = false)
    (b : Char) (bs : List Char) (hweq : w = b :: bs) (hw : ∀ x ∈ w, pyIsSpace x = true) :
    pySplit (n + 1) (t ++ (w ++ R)) = t :: pySplit n (w ++ R) := by
  have ha : pyIsSpace a = false := ht a (hteq ▸ List.mem_cons_self a as)
  have hlw : dropWS (t ++ (w ++ R)) = t ++ (w ++ R) := by
    rw [hteq]
    simp [dropWS, List.dropWhile_cons, ha]
  have htok : takeTok (t ++ (w ++ R)) = t := by
    rw [takeTok, takeWhile_append_of_all _ _ _ (fun x hx => by simp [ht x hx])]
    have hb : pyIsSpace b = true := hw b (hweq ▸ List.mem_cons_self b bs)
    rw [hweq]
    simp [List.takeWhile_cons, hb]
  have hdrop : (t ++ (w ++ R)).drop t.length = w ++ R := List.drop_left t (w ++ R)
  have hne : (t ++ (w ++ R)).isEmpty = false := by
    rw [hteq]; rfl
  simp only [pySplit, hlw, hne, Bool.false_eq_true, if_false, htok, hdrop]

theorem pySplit_last (t : List Char) (a : Char) (as : List Char)
    (hteq : t = a :: as) (ha : pyIsSpace a = false) :
    pySplit 0 t = [t] := by
  have hlw : dropWS t = t := by
    rw [hteq]; simp [dropWS, List.dropWhile_cons, ha]
  have hne : t.isEmpty = false := by rw [hteq]; rfl
  simp only [pySplit, hlw, hne, Bool.false_eq_true, if_false]

/-- Claim C1: a line trimming to fewer than 4 whitespace-delimited tokens makes
`parse_log_line` fail with the error carrying the raw line; a line with 4 or
more tokens yields a `LogEntry` and no error. -/
theorem claim_C1 (line : List Char) :
    (tokenCount (pyStrip line) < 4 → parse_log_line line = Except.error line) ∧
    (4 ≤ tokenCount (pyStrip line) → ∃ e, parse_log_line line = Except.ok e) := by
  have hlen : (pySplit 3 (pyStrip line)).length = min (tokenCount (pyStrip line)) 4 :=
    length_pySplit 3 (pyStrip line)
  constructor
  · intro hlt
    rcases hp : pySplit 3 (pyStrip line) with _ | ⟨a, _ | ⟨b, _ | ⟨c, _ | ⟨d, _ | ⟨e, tl⟩⟩⟩⟩⟩ <;>
      first
        | (rw [hp] at hlen; simp at hlen; omega)
        | simp [parse_log_line, hp]
  · intro hge
    rcases hp : pySplit 3 (pyStrip line) with _ | ⟨a, _ | ⟨b, _ | ⟨c, _ | ⟨d, _ | ⟨e, tl⟩⟩⟩⟩⟩ <;>
      (rw [hp] at hlen; simp at hlen; try omega)
    exact ⟨{ date := a, time := b, level := c, message := d },
      by simp [parse_log_line, hp]⟩

/-- Witness for C1: the spec's Scenario 4 line with only 3 tokens is
rejected, and the same line with a message token appended parses. -/
theorem claim_C1_witness :
    parse_log_line "2024-01-01 10:00:00 INFO".data
        = Except.error "2024-01-01 10:00:00 INFO".data ∧
    ∃ e, parse_log_line "2024-01-01 10:00:00 INFO Service started".data = Except.ok e :=
  ⟨(claim_C1 "2024-01-01 10:00:00 INFO".data).1 (by decide),
   (claim_C1 "2024-01-01 10:00:00 INFO Service started".data).2 (by decide)⟩

/-- Claim C3: when the trimmed line decomposes into three whitespace-free
tokens separated by whitespace runs and a remainder starting with a
non-whitespace character, `parse_log_line` returns that remainder — the
line's content after the third token — verbatim as the `message` field. -/
theorem claim_C3 (line t1 ws1 t2 ws2 t3 ws3 ms : List Char) (m : Char)
    (hdec : pyStrip line = t1 ++ ws1 ++ t2 ++ ws2 ++ t3 ++ ws3 ++ m :: ms)
    (a1 : Char) (r1 : List Char) (ht1 : t1 = a1 :: r1) (hn1 : ∀ x ∈ t1, pyIsSpace x = false)
    (b1 : Char) (s1 : List Char) (hw1 : ws1 = b1 :: s1) (hs1 : ∀ x ∈ ws1, pyIsSpace x = true)
    (a2 : Char) (r2 : List Char) (ht2 : t2 = a2 :: r2) (hn2 : ∀ x ∈ t2, pyIsSpace x = false)
    (b2 : Char) (s2 : List Char) (hw2 : ws2 = b2 :: s2) (hs2 : ∀ x ∈ ws2, pyIsSpace x = true)
    (a3 : Char) (r3 : List Char) (ht3 : t3 = a3 :: r3) (hn3 : ∀ x ∈ t3, pyIsSpace x = false)
    (b3 : Char) (s3 : List Char) (hw3 : ws3 = b3 :: s3) (hs3 : ∀ x ∈ ws3, pyIsSpace x = true)
    (hm : pyIsSpace m = false) :
    parse_log_line line =
      Except.ok { date := t1, time := t2, level := t3, message := m :: ms } := by
  have hsplit : pySplit 3 (pyStrip line) = [t1, t2, t3, m :: ms] := by
    rw [hdec]
    have e1 : t1 ++ ws1 ++ t2 ++ ws2 ++ t3 ++ ws3 ++ m :: ms
        = t1 ++ (ws1 ++ (t2 ++ (ws2 ++ (t3 ++ (ws3 ++ m :: ms))))) := by
      simp [List.append_assoc]
    rw [e1,
      pySplit_token_step 2 t1 ws1 _ a1 r1 ht1 hn1 b1 s1 hw1 hs1,
      pySplit_ws_absorb 2 ws1 _ hs1,
      pySplit_token_step 1 t2 ws2 _ a2 r2 ht2 hn2 b2 s2 hw2 hs2,
      pySplit_ws_absorb 1 ws2 _ hs2,
      pySplit_token_step 0 t3 ws3 _ a3 r3 ht3 hn3 b3 s3 hw3 hs3,
      pySplit_ws_absorb 0 ws3 _ hs3,
      pySplit_last (m :: ms) m ms rfl hm]
  simp [parse_log_line, hsplit]

/-- Witness for C3: the Scenario 1 line with an embedded space in its
message parses with the message kept whole. -/
theorem claim_C3_witness :
    parse_log_line "2024-01-01 10:05:00 ERROR Disk full".data =
      Except.ok { date := "2024-01-01".data, time := "10:05:00".data,
                  level := "ERROR".data, message := "Disk full".data } :=
  claim_C3 "2024-01-01 10:05:00 ERROR Disk full".data
    "2024-01-01".data " ".data "10:05:00".data " ".data "ERROR".data " ".data
    "isk full".data 'D'
    (by decide)
    '2' "024-01-01".data (by decide) (by decide)
    ' ' [] (by decide) (by decide)
    '1' "0:05:00".data (by decide) (by decide)
    ' ' [] (by decide) (by decide)
    'E' "RROR".data (by decide) (by decide)
    ' ' [] (by decide) (by decide)
    (by decide)

/-- Claim C9: every successfully parsed entry has four non-empty fields, and
a line with fewer than 4 tokens is rejected rather than defaulted. -/
theorem claim_C9 (line : List Char) :
    (∀ e, parse_log_line line = Except.ok e →
      e.date ≠ [] ∧ e.time ≠ [] ∧ e.level ≠ [] ∧ e.message ≠ []) ∧
    (tokenCount (pyStrip line) < 4 → parse_log_line line = Except.error line) := by
  constructor
  · intro e he
    rcases hp : pySplit 3 (pyStrip line) with _ | ⟨a, _ | ⟨b, _ | ⟨c, _ | ⟨d, _ | ⟨x, tl⟩⟩⟩⟩⟩ <;>
      simp [parse_log_line, hp] at he
    have hmem := pySplit_mem_ne_nil 3 (pyStrip line)
    rw [hp] at hmem
    rw [← he]
    refine ⟨hmem a (by simp), hmem b (by simp), hmem c (by simp), hmem d (by simp)⟩
  · exact (claim_C1 line).1

/-- Witness for C9: the parsed Scenario 1 line has non-empty fields, and the
3-token line is rejected. -/
theorem claim_C9_witness :
    (sampleEntry.date ≠ [] ∧ sampleEntry.time ≠ [] ∧ sampleEntry.level ≠ [] ∧
      sampleEntry.message ≠ []) ∧
    parse_log_line "2024-01-01 10:00:00 INFO".data
      = Except.error "2024-01-01 10:00:00 INFO".data :=
  ⟨(claim_C9 "2024-01-01 10:00:00 INFO Service started".data).1 sampleEntry rfl,
   (claim_C9 "2024-01-01 10:00:00 INFO".data).2 (by decide)⟩

/-- Claim C2: the parser is applied to the non-blank lines in source order
and the first parse failure aborts the whole load — whenever the non-blank
lines decompose as well-formed lines followed by a malformed line, `load_logs`
returns the propagated error carrying that line, never a partial collection,
even if well-formed lines follow. -/
theorem claim_C2 (lines : List (List Char)) (pre : List (List Char))
    (bad : List Char) (post : List (List Char))
    (hdec : lines.filter (fun l => !(pyStrip l).isEmpty) = pre ++ bad :: post)
    (hpre : ∀ l ∈ pre, ∃ e, parse_log_line l = Except.ok e)
    (hbad : parse_log_line bad = Except.error bad) :
    load_logs lines = Except.error bad := by
  induction lines generalizing pre with
  | nil => simp at hdec
  | cons line rest ih =>
    by_cases hblank : (pyStrip line).isEmpty = true
    · rw [List.filter_cons_of_neg (by simp [hblank])] at hdec
      simpa [load_logs, hblank] using ih pre hdec hpre
    · have hblank' : (pyStrip line).isEmpty = false := Bool.of_not_eq_true hblank
      rw [List.filter_cons_of_pos (by simp [hblank'])] at hdec
      cases pre with
      | nil =>
        simp at hdec
        obtain ⟨hline, hrest⟩ := hdec
        subst hline
        simp [load_logs, hblank', hbad]
      | cons p pre' =>
        simp at hdec
        obtain ⟨hline, hrest⟩ := hdec
        subst hline
        obtain ⟨e, he⟩ := hpre line (List.mem_cons_self line pre')
        have hload := ih pre' hrest (fun l hl => hpre l (List.mem_cons_of_mem line hl))
        simp [load_logs, hblank', he, hload]

/-- Witness for C2: the malformed 3-token line in the middle aborts the load
with the error naming it, though a well-formed line follows. -/
theorem claim_C2_witness :
    load_logs ["2024-01-01 10:00:00 INFO Service started".data,
               "2024-01-01 10:00:00 INFO".data,
               "2024-01-01 10:05:00 ERROR Disk full".data]
      = Except.error "2024-01-01 10:00:00 INFO".data :=
  claim_C2 _ ["2024-01-01 10:00:00 INFO Service started".data]
    "2024-01-01 10:00:00 INFO".data ["2024-01-01 10:05:00 ERROR Disk full".data]
    (by decide)
    (by
      intro l hl
      rw [List.mem_singleton] at hl
      subst hl
      exact ⟨sampleEntry, rfl⟩)
    rfl

/-- Claim C8: `load_logs` skips exactly the lines that are blank after
trimming (they are not treated as malformed), parses the remaining lines in
input order, and returns the empty collection on an all-blank source. -/
theorem claim_C8 (lines : List (List Char)) :
    load_logs lines = load_logs (lines.filter (fun l => !(pyStrip l).isEmpty)) ∧
    ((∀ l ∈ lines.filter (fun l => !(pyStrip l).isEmpty),
        ∃ e, parse_log_line l = Except.ok e) →
      ∃ entries, load_logs lines = Except.ok entries ∧
        List.Forall₂ (fun l e => parse_log_line l = Except.ok e)
          (lines.filter (fun l => !(pyStrip l).isEmpty)) entries) ∧
    ((∀ l ∈ lines, (pyStrip l).isEmpty = true) → load_logs lines = Except.ok []) := by
  have hmain : ∀ ls : List (List Char),
      load_logs ls = load_logs (ls.filter (fun l => !(pyStrip l).isEmpty)) := by
    intro ls
    induction ls with
    | nil => rfl
    | cons line rest ih =>
      by_cases hblank : (pyStrip line).isEmpty = true
      · rw [List.filter_cons_of_neg (by simp [hblank])]
        simpa [load_logs, hblank] using ih
      · have hblank' : (pyStrip line).isEmpty = false := Bool.of_not_eq_true hblank
        rw [List.filter_cons_of_pos (by simp [hblank'])]
        simp only [load_logs, hblank', Bool.false_eq_true, if_false]
        rw [ih]
  have hok : ∀ ls : List (List Char),
      (∀ l ∈ ls.filter (fun l => !(pyStrip l).isEmpty),
        ∃ e, parse_log_line l = Except.ok e) →
      ∃ entries, load_logs ls = Except.ok entries ∧
        List.Forall₂ (fun l e => parse_log_line l = Except.ok e)
          (ls.filter (fun l => !(pyStrip l).isEmpty)) entries := by
    intro ls
    induction ls with
    | nil => exact fun _ => ⟨[], rfl, List.Forall₂.nil⟩
    | cons line rest ih =>
      intro hall
      by_cases hblank : (pyStrip line).isEmpty = true
      · rw [List.filter_cons_of_neg (by simp [hblank])] at hall ⊢
        obtain ⟨entries, hload, hfa⟩ := ih hall
        exact ⟨entries, by simpa [load_logs, hblank] using hload, hfa⟩
      · have hblank' : (pyStrip line).isEmpty = false := Bool.of_not_eq_true hblank
        rw [List.filter_cons_of_pos (by simp [hblank'])] at hall ⊢
        obtain ⟨e, he⟩ := hall line (List.mem_cons_self line _)
        obtain ⟨entries, hload, hfa⟩ :=
          ih (fun l hl => hall l (List.mem_cons_of_mem line hl))
        exact ⟨e :: entries, by simp [load_logs, hblank', he, hload],
          List.Forall₂.cons he hfa⟩
  refine ⟨hmain lines, hok lines, fun hall => ?_⟩
  have hfe : lines.filter (fun l => !(pyStrip l).isEmpty) = [] := by
    rw [List.filter_eq_nil_iff]
    intro l hl
    simp [hall l hl]
  rw [hmain lines, hfe]
  rfl

/-- Witness for C8: a source of only blank lines loads to the empty
collection, and a source with blanks around two good lines loads to exactly
their parses in order. -/
theorem claim_C8_witness :
    load_logs ["   ".data, "".data, "\t".data] = Except.ok [] ∧
    ∃ entries,
      load_logs ["  ".data, "2024-01-01 10:00:00 INFO Service started".data,
                 "".data, "2024-01-01 10:05:00 ERROR Disk full".data]
        = Except.ok entries ∧
      List.Forall₂ (fun l e => parse_log_line l = Except.ok e)
        ((["  ".data, "2024-01-01 10:00:00 INFO Service started".data,
           "".data, "2024-01-01 10:05:00 ERROR Disk full".data]).filter
          (fun l => !(pyStrip l).isEmpty)) entries :=
  ⟨(claim_C8 ["   ".data, "".data, "\t".data]).2.2 (by decide),
   (claim_C8 ["  ".data, "2024-01-01 10:00:00 INFO Service started".data,
              "".data, "2024-01-01 10:05:00 ERROR Disk full".data]).2.1
     (by
       intro l hl
       fin_cases hl
       · exact ⟨sampleEntry, rfl⟩
       · exact ⟨{ date := "2024-01-01".data, time := "10:05:00".data,
                  level := "ERROR".data, message := "Disk full".data }, rfl⟩)⟩

/-! Counter lemmas. -/

theorem countsLookup_counterInsert (m : List (List Char × Nat)) (k q : List Char) :
    countsLookup (counterInsert m k) q =
      if q = k then countsLookup m q + 1 else countsLookup m q := by
  induction m with
  | nil =>
    by_cases hqk : q = k
    · subst hqk; simp [counterInsert, countsLookup]
    · have h2 : ¬k = q := fun h => hqk h.symm
      simp [counterInsert, countsLookup, hqk, h2]
  | cons p rest ih =>
    obtain ⟨k', n⟩ := p
    by_cases hk : k' = k
    · subst hk
      by_cases hqk : q = k'
      · subst hqk; simp [counterInsert, countsLookup]
      · have h2 : ¬k' = q := fun h => hqk h.symm
        simp [counterInsert, countsLookup, hqk, h2]
    · by_cases hq : k' = q
      · subst hq
        simp [counterInsert, countsLookup, hk]
      · simp [counterInsert, countsLookup, hk, hq, ih]

theorem mem_keys_counterInsert (m : List (List Char × Nat)) (k q : List Char) :
    q ∈ (counterInsert m k).map Prod.fst ↔ q ∈ m.map Prod.fst ∨ q = k := by
  induction m with
  | nil => simp [counterInsert]
  | cons p rest ih =>
    obtain ⟨k', n⟩ := p
    by_cases hk : k' = k
    · subst hk
      have hc : counterInsert ((k', n) :: rest) k' = (k', n + 1) :: rest := by
        simp [counterInsert]
      rw [hc, List.map_cons, List.mem_cons, List.map_cons, List.mem_cons]
      tauto
    · have hc : counterInsert ((k', n) :: rest) k = (k', n) :: counterInsert rest k := by
        simp [counterInsert, hk]
      rw [hc, List.map_cons, List.mem_cons, ih, List.map_cons, List.mem_cons]
      tauto

theorem nodup_keys_counterInsert (m : List (List Char × Nat)) (k : List Char)
    (h : (m.map Prod.fst).Nodup) : ((counterInsert m k).map Prod.fst).Nodup := by
  induction m with
  | nil => simp [counterInsert]
  | cons p rest ih =>
    obtain ⟨k', n⟩ := p
    rw [List.map_cons, List.nodup_cons] at h
    have h1 : k' ∉ List.map Prod.fst rest := by simpa using h.1
    have h2 : (List.map Prod.fst rest).Nodup := h.2
    by_cases hk : k' = k
    · subst hk
      have hc : counterInsert ((k', n) :: rest) k' = (k', n + 1) :: rest := by
        simp [counterInsert]
      rw [hc, List.map_cons, List.nodup_cons]
      exact ⟨by simpa using h1, h2⟩
    · have hc : counterInsert ((k', n) :: rest) k = (k', n) :: counterInsert rest k := by
        simp [counterInsert, hk]
      rw [hc, List.map_cons, List.nodup_cons]
      refine ⟨?_, ih h2⟩
      intro hmem
      have hmem2 : k' ∈ (counterInsert rest k).map Prod.fst := by simpa using hmem
      rcases (mem_keys_counterInsert rest k k').1 hmem2 with hin | heq
      · exact h1 hin
      · exact hk heq

theorem sum_counterInsert (m : List (List Char × Nat)) (k : List Char) :
    ((counterInsert m k).map Prod.snd).sum = (m.map Prod.snd).sum + 1 := by
  induction m with
  | nil => simp [counterInsert]
  | cons p rest ih =>
    obtain ⟨k', n⟩ := p
    by_cases hk : k' = k <;> simp only [counterInsert, hk, if_pos, if_neg,
      List.map_cons, List.sum_cons, ih, if_true, if_false, reduceIte] <;> omega

theorem countsLookup_count_foldl (logs : List LogEntry) :
    ∀ (m : List (List Char × Nat)) (q : List Char),
      countsLookup (logs.foldl (fun m log => counterInsert m log.level) m) q =
        countsLookup m q + (logs.filter (fun e => e.level == q)).length := by
  induction logs with
  | nil => intro m q; simp
  | cons e logs ih =>
    intro m q
    rw [List.foldl_cons, ih]
    rw [countsLookup_counterInsert]
    by_cases hq : q = e.level
    · simp [List.filter_cons, hq]
      omega
    · have hne : ¬(e.level = q) := fun h => hq h.symm
      simp [List.filter_cons, hne, hq]

theorem mem_keys_count_foldl (logs : List LogEntry) :
    ∀ (m : List (List Char × Nat)) (q : List Char),
      q ∈ ((logs.foldl (fun m log => counterInsert m log.level) m).map Prod.fst) ↔
        q ∈ m.map Prod.fst ∨ q ∈ logs.map LogEntry.level := by
  induction logs with
  | nil => intro m q; simp
  | cons e logs ih =>
    intro m q
    rw [List.foldl_cons, ih, mem_keys_counterInsert]
    simp only [List.map_cons, List.mem_cons]
    tauto

theorem nodup_keys_count_foldl (logs : List LogEntry) :
    ∀ m : List (List Char × Nat), (m.map Prod.fst).Nodup →
      (((logs.foldl (fun m log => counterInsert m log.level) m)).map Prod.fst).Nodup := by
  induction logs with
  | nil => intro m h; simpa using h
  | cons e logs ih =>
    intro m h
    rw [List.foldl_cons]
    exact ih _ (nodup_keys_counterInsert m e.level h)

theorem sum_count_foldl (logs : List LogEntry) :
    ∀ m : List (List Char × Nat),
      (((logs.foldl (fun m log => counterInsert m log.level) m)).map Prod.snd).sum =
        (m.map Prod.snd).sum + logs.length := by
  induction logs with
  | nil => intro m; simp
  | cons e logs ih =>
    intro m
    rw [List.foldl_cons, ih, sum_counterInsert]
    simp only [List.length_cons]
    omega

/-- Claim C4: the counter built by `count_logs_by_level` has pairwise
distinct keys, its keys are exactly the level labels occurring in the
collection, the count at each key is the exact number of entries bearing that
level, the counts sum to the collection's size, and the empty collection
yields the empty mapping. -/
theorem claim_C4 (logs : List LogEntry) :
    ((count_logs_by_level logs).map Prod.fst).Nodup ∧
    (∀ q : List Char,
      q ∈ (count_logs_by_level logs).map Prod.fst ↔ q ∈ logs.map LogEntry.level) ∧
    (∀ q : List Char,
      countsLookup (count_logs_by_level logs) q =
        (logs.filter (fun e => e.level == q)).length) ∧
    ((count_logs_by_level logs).map Prod.snd).sum = logs.length ∧
    count_logs_by_level [] = [] := by
  refine ⟨nodup_keys_count_foldl logs [] (by simp), fun q => ?_, fun q => ?_, ?_, rfl⟩
  · rw [count_logs_by_level, mem_keys_count_foldl]
    simp
  · rw [count_logs_by_level, countsLookup_count_foldl]
    simp [countsLookup]
  · rw [count_logs_by_level, sum_count_foldl]
    simp

/-- Claim C5: two requested level strings with the same upper-casing produce
identical filter results, since the query is upper-cased before comparison
against the stored entry levels. -/
theorem claim_C5 (logs : List LogEntry) (q1 q2 : List Char)
    (h : pyUpper q1 = pyUpper q2) :
    filter_logs_by_level logs q1 = filter_logs_by_level logs q2 := by
  simp only [filter_logs_by_level, h]

/-- Witness for C5: filtering the Scenario 1 entries by "error" and by
"ERROR" gives identical results. -/
theorem claim_C5_witness :
    filter_logs_by_level
        [sampleEntry,
         { date := "2024-01-01".data, time := "10:05:00".data,
           level := "ERROR".data, message := "Disk full".data }]
        "error".data
      = filter_logs_by_level
        [sampleEntry,
         { date := "2024-01-01".data, time := "10:05:00".data,
           level := "ERROR".data, message := "Disk full".data }]
        "ERROR".data :=
  claim_C5 _ "error".data "ERROR".data (by decide)

/-- Claim C10: for an upper-case label, the count assigned by
`count_logs_by_level` (0 when absent) equals the length of
`filter_logs_by_level` at that label. -/
theorem claim_C10 (logs : List LogEntry) (L : List Char) (h : pyUpper L = L) :
    countsLookup (count_logs_by_level logs) L = (filter_logs_by_level logs L).length := by
  rw [count_logs_by_level, countsLookup_count_foldl, filter_logs_by_level]
  simp [h, countsLookup]

/-- Witness for C10: the aggregator and the filter agree on the count of
"ERROR" over a two-entry collection. -/
theorem claim_C10_witness :
    countsLookup
        (count_logs_by_level
          [sampleEntry,
           { date := "2024-01-01".data, time := "10:05:00".data,
             level := "ERROR".data, message := "Disk full".data }])
        "ERROR".data
      = (filter_logs_by_level
          [sampleEntry,
           { date := "2024-01-01".data, time := "10:05:00".data,
             level := "ERROR".data, message := "Disk full".data }]
          "ERROR".data).length :=
  claim_C10 _ "ERROR".data (by decide)

/-! The lexicographic order on strings used by `sorted`. -/

theorem strLe_total (a : List Char) : ∀ b, strLe a b = true ∨ strLe b a = true := by
  induction a with
  | nil => intro b; left; rfl
  | cons x xs ih =>
    intro b
    cases b with
    | nil => right; rfl
    | cons y ys =>
      by_cases hxy : x = y
      · subst hxy
        simpa [strLe] using ih ys
      · rcases lt_or_gt_of_ne hxy with h | h
        · left; simp [strLe, hxy, h]
        · right
          have hyx : ¬y = x := fun he => hxy he.symm
          simp [strLe, hyx, h]

theorem strLe_trans (a : List Char) : ∀ b c, strLe a b = true → strLe b c = true →
    strLe a c = true := by
  induction a with
  | nil => intro b c _ _; rfl
  | cons x xs ih =>
    intro b c hab hbc
    cases b with
    | nil => simp [strLe] at hab
    | cons y ys =>
      cases c with
      | nil => simp [strLe] at hbc
      | cons z zs =>
        by_cases hxy : x = y <;> by_cases hyz : y = z
        · subst hxy; subst hyz
          simp only [strLe, beq_self_eq_true, if_true] at hab hbc ⊢
          exact ih ys zs hab hbc
        · subst hxy
          simp only [strLe, beq_self_eq_true, if_true] at hab
          simp only [strLe, beq_iff_eq, hyz, if_false] at hbc ⊢
          have hlt : x < z := of_decide_eq_true hbc
          have hne : ¬x = z := ne_of_lt hlt
          simp [hne, hlt]
        · subst hyz
          simp only [strLe, beq_iff_eq, hxy, if_false] at hab
          have hlt : x < y := of_decide_eq_true hab
          have hne : ¬x = y := ne_of_lt hlt
          simp [strLe, hne, hlt]
        · simp only [strLe, beq_iff_eq, hxy, hyz, if_false] at hab hbc
          have h1 : x < y := of_decide_eq_true hab
          have h2 : y < z := of_decide_eq_true hbc
          have hlt : x < z := lt_trans h1 h2
          have hne : ¬x = z := ne_of_lt hlt
          simp [strLe, hne, hlt]

theorem strLe_antisymm (a : List Char) : ∀ b, strLe a b = true → strLe b a = true →
    a = b := by
  induction a with
  | nil =>
    intro b hab _
    cases b with
    | nil => rfl
    | cons y ys => simp [strLe] at *
  | cons x xs ih =>
    intro b hab hba
    cases b with
    | nil => simp [strLe] at hab
    | cons y ys =>
      by_cases hxy : x = y
      · subst hxy
        simp only [strLe, beq_self_eq_true, if_true] at hab hba
        rw [ih ys hab hba]
      · have hyx : ¬y = x := fun he => hxy he.symm
        simp only [strLe, beq_iff_eq, hxy, hyx, if_false] at hab hba
        have h1 : x < y := of_decide_eq_true hab
        have h2 : y < x := of_decide_eq_true hba
        exact absurd h2 (not_lt_of_gt h1)

instance : IsTotal (List Char) strLeP := ⟨fun a b => strLe_total a b⟩

instance : IsTrans (List Char) strLeP := ⟨fun a b c => strLe_trans a b c⟩

instance : IsAntisymm (List Char) strLeP := ⟨fun a b => strLe_antisymm a b⟩

/-! The running maximum computed by `calculate_level_width`. -/

theorem le_foldr_max (l : List Nat) (x : Nat) (hx : x ∈ l) : x ≤ l.foldr max 0 := by
  induction l with
  | nil => simp at hx
  | cons y ys ih =>
    rcases List.mem_cons.1 hx with h | h
    · subst h; simp [List.foldr_cons]
    · have := ih h
      simp [List.foldr_cons]
      omega

theorem foldr_max_mem (l : List Nat) : l.foldr max 0 = 0 ∨ l.foldr max 0 ∈ l := by
  induction l with
  | nil => left; rfl
  | cons y ys ih =>
    rw [List.foldr_cons]
    rcases le_or_lt (ys.foldr max 0) y with h | h
    · right
      rw [Nat.max_eq_left h]
      exact List.mem_cons_self y ys
    · rw [Nat.max_eq_right (Nat.le_of_lt h)]
      rcases ih with h0 | hmem
      · omega
      · right; exact List.mem_cons_of_mem y hmem

/-- Claim C6: the level-column width is the maximum of the header length and
the longest key length (the header length alone when the mapping is empty);
the header row is the two labels left-aligned around `" | "`; the separator
row is dashes (with one bar) sized from that width plus the count-header
length; and there is one data row
per key, keys in ascending lexicographic order whatever the input order,
each row the label padded to the width, `" | "`, and its count. -/
theorem claim_C6 (counts : List (List Char × Nat)) (lh ch : List Char) :
    (lh.length ≤ calculate_level_width counts lh ∧
      (∀ p ∈ counts, p.1.length ≤ calculate_level_width counts lh) ∧
      (calculate_level_width counts lh = lh.length ∨
        ∃ p ∈ counts, calculate_level_width counts lh = p.1.length)) ∧
    (counts = [] → calculate_level_width counts lh = lh.length) ∧
    (∀ w : Nat, print_table_header lh ch w =
      [padLeftAlign lh w ++ " | ".data ++ ch,
       List.replicate (w + 1) '-' ++ '|' :: List.replicate (ch.length + 1) '-'] ∧
      (List.replicate (w + 1) '-' ++ '|' :: List.replicate (ch.length + 1) '-').length =
        w + ch.length + 3) ∧
    (∀ w : Nat, ∃ ks : List (List Char),
      ks.Perm (counts.map Prod.fst) ∧ List.Sorted strLeP ks ∧
      print_table_rows counts w =
        ks.map (fun level =>
          padLeftAlign level w ++ " | ".data ++ natChars (countsLookup counts level))) := by
  refine ⟨⟨?_, ?_, ?_⟩, ?_, ?_, ?_⟩
  · exact le_max_left _ _
  · intro p hp
    refine le_trans ?_ (le_max_right lh.length _)
    exact le_foldr_max _ _ (List.mem_map_of_mem (fun p => p.1.length) hp)
  · rcases le_or_lt ((counts.map (fun p => p.1.length)).foldr max 0) lh.length with h | h
    · left
      rw [calculate_level_width, Nat.max_eq_left h]
    · rcases foldr_max_mem (counts.map (fun p => p.1.length)) with h0 | hmem
      · omega
      · right
        rcases List.mem_map.1 hmem with ⟨p, hp, hlen⟩
        exact ⟨p, hp, by rw [calculate_level_width, Nat.max_eq_right (Nat.le_of_lt h), hlen]⟩
  · intro hempty
    subst hempty
    simp [calculate_level_width]
  · intro w
    refine ⟨?_, ?_⟩
    · rw [print_table_header]
      congr 1
      simp [List.replicate_succ']
    · simp [List.length_replicate]
      omega
  · intro w
    refine ⟨List.insertionSort strLeP (counts.map Prod.fst),
      List.perm_insertionSort strLeP (counts.map Prod.fst),
      List.sorted_insertionSort strLeP (counts.map Prod.fst), rfl⟩

/-- Witness for C6: the empty mapping gives the header's own length as the
column width. -/
theorem claim_C6_witness :
    calculate_level_width [] "Рівень логування".data = ("Рівень логування".data).length :=
  (claim_C6 [] "Рівень логування".data "Кількість".data).2.1 rfl

/-- Claim C7: detail-mode rendering prints the single no-entries notice when
the filtered collection is empty, and otherwise a header naming the level
followed by exactly one `date time - message` line per entry in collection
order; on the Scenario 2 input the single detail line is
`2024-01-01 10:00:00 - Service started`. -/
theorem claim_C7 :
    (∀ (logs : List LogEntry) (level : List Char),
      (logs = [] → display_filtered_logs logs level =
        ["\nНемає записів для рівня ".data ++ apos :: pyUpper level ++ apos :: ".".data]) ∧
      (logs ≠ [] → display_filtered_logs logs level =
        ("\nДеталі логів для рівня ".data ++ apos :: pyUpper level ++ apos :: ":".data)
          :: logs.map (fun log =>
            log.date ++ " ".data ++ log.time ++ " - ".data ++ log.message))) ∧
    (∃ entries, load_logs sampleLines = Except.ok entries ∧
      display_filtered_logs (filter_logs_by_level entries "info".data) "info".data =
        [("\nДеталі логів для рівня ".data ++ apos :: "INFO".data ++ apos :: ":".data),
         "2024-01-01 10:00:00 - Service started".data]) := by
  constructor
  · intro logs level
    constructor
    · intro h
      subst h
      rfl
    · intro h
      cases logs with
      | nil => exact absurd rfl h
      | cons e es => rfl
  · exact ⟨_, rfl, rfl⟩

/-- Witness for C7: the spec's Scenario 3 — filtering by "WARNING" with no
matching entries prints the single no-entries notice, not a table. -/
theorem claim_C7_witness :
    display_filtered_logs [] "WARNING".data =
      ["\nНемає записів для рівня ".data ++ apos :: pyUpper "WARNING".data
        ++ apos :: ".".data] :=
  (claim_C7.1 [] "WARNING".data).1 rfl

end ScriptLogger
